import Mathlib

/-!
# Verification of the safe_network client/node messaging core

A shallow embedding, in Lean 4, of the client-side request dispatch engine
(`src/sn_client/src/connections/messaging.rs`), the node-side offline-proposal
logic (`src/sn_node/src/node/connectivity.rs`) and the chunk store
(`src/sn_node/src/storage/chunks.rs`), together with theorems settling the
design-document claims about them.

Conventions of the embedding:
* `XorName`, `MsgId`, `OperationId`, BLS keys and error payloads are modelled
  as `Nat` (the claims under study depend only on equality of these values).
* Channels are modelled by the finite sequence of messages a receive loop
  dequeues before it gives up: the end of the list stands for "the channel
  stays empty until the attempt budget expires" (for the cmd ack loop) or
  "the channel is closed" (for the query loop, whose `recv().await` returning
  `None` means all senders were dropped).
* Rust `Result` is modelled by `RustResult`; fallible operations return it.
-/

namespace SafeNetwork

/-- Rust's `Result<T, E>`. -/
inductive RustResult (α : Type) (ε : Type) where
  | ok (a : α)
  | err (e : ε)
  deriving DecidableEq, Repr

/-! ## send_cmd (src/sn_client/src/connections/messaging.rs, lines 56-154)

`send_cmd` resolves the elders, generates a `MsgId`, inserts a response
channel into `pending_cmds`, fans the message out with `send_msg`, and then
polls the channel: an element `(src, None)` is an ack, `(src, Some(error))`
an error response.  The loop breaks successfully once `expected_acks =
elders_len * 2 / 3 + 1` acks arrived, returns `Error::ErrorCmd` once that
many error responses arrived, and also breaks (returning `Ok`) when the
attempt budget `max(200, cmd_ack_wait_ms / 50)` is exhausted. -/

/-- One message on the `pending_cmds` response channel: `(src, None)` is a
`CmdAck`, `(src, Some(err))` carries a `CmdError::Data` payload (the payload
kind is modelled as a `Nat`).  The source peer does not influence the loop
and is omitted. -/
inductive CmdResponse where
  | ack
  | err (source : Nat)
  deriving DecidableEq, Repr

/-- Outcome of `send_cmd` after the fan-out succeeded: `Ok(())` or
`Err(Error::ErrorCmd { source, msg_id })`. -/
inductive CmdOutcome where
  | success
  | errorCmd (source : Nat)
  deriving DecidableEq, Repr

/-- The ack-waiting loop of `send_cmd` (messaging.rs lines 108-150), with the
`pending_cmds` table threaded through.  `receivedAck`/`receivedErr` are the
two counters; the list is the sequence of responses dequeued by `try_recv`
before the attempt budget runs out.  The entry for `msgId` is removed
(`self.pending_cmds.remove(&msg_id)`) in the two threshold branches only;
the exhaustion branch (`attempts >= expected_cmd_ack_wait_attempts`) breaks
out of the loop without touching `pending_cmds`. -/
def ackWait (expectedAcks : Nat) (pending : Finset Nat) (msgId : Nat) :
    Nat → Nat → List CmdResponse → Finset Nat × CmdOutcome
  | _, _, [] => (pending, .success)
  | receivedAck, receivedErr, r :: rest =>
    match r with
    | .ack =>
      if receivedAck + 1 ≥ expectedAcks then
        (pending.erase msgId, .success)
      else
        ackWait expectedAcks pending msgId (receivedAck + 1) receivedErr rest
    | .err e =>
      if receivedErr + 1 ≥ expectedAcks then
        (pending.erase msgId, .errorCmd e)
      else
        ackWait expectedAcks pending msgId receivedAck (receivedErr + 1) rest

/-- The outcome of `send_cmd`'s waiting phase for `eldersLen` resolved elders:
`expected_acks = elders_len * 2 / 3 + 1` (messaging.rs line 97). -/
def send_cmd_outcome (eldersLen : Nat) (responses : List CmdResponse) : CmdOutcome :=
  (ackWait (eldersLen * 2 / 3 + 1) ∅ 0 0 0 responses).2

/-- `send_cmd` as a state transformer on the `pending_cmds` key set
(messaging.rs lines 90-153): the channel for `msgId` is inserted *before*
`send_msg` is called; if `send_msg` fails, the `?` on line 95 propagates the
error with the entry still present (result `none`); otherwise the ack loop
runs. -/
def sendCmdRun (pending : Finset Nat) (msgId : Nat) (sendOk : Bool)
    (eldersLen : Nat) (responses : List CmdResponse) :
    Finset Nat × Option CmdOutcome :=
  let pending1 := insert msgId pending
  if sendOk then
    let r := ackWait (eldersLen * 2 / 3 + 1) pending1 msgId 0 0 responses
    (r.1, some r.2)
  else
    (pending1, none)

/-- Number of acks in a response sequence. -/
def ackCount (rs : List CmdResponse) : Nat :=
  rs.countP (fun r => match r with | .ack => true | .err _ => false)

/-- Number of error responses in a response sequence. -/
def errCount (rs : List CmdResponse) : Nat :=
  rs.countP (fun r => match r with | .ack => false | .err _ => true)

/-! ## send_query (src/sn_client/src/connections/messaging.rs, lines 162-322)

`send_query` resolves three elders, registers a `(msg_id, sender)` listener
under `pending_queries[operation_id]`, fans the message out in the
background, and then runs a receive loop over `QueryResponse`s.  For a
`GetChunk` query (`chunk_addr = Some …`) a `GetChunk(Ok(chunk))` response is
accepted only if `chunk.name()` equals the requested address; error variants
of the `Get*` family are saved and counted as discarded; any other response
is returned immediately.  After the loop the listener is removed from the
entry keyed by the *response's* operation id. -/

/-- A chunk; `name` stands for `Chunk::name()` (the content-derived XorName)
and `value` for its payload bytes. -/
structure Chunk where
  name : Nat
  value : List Nat
  deriving DecidableEq, Repr

/-- The query-response variants that `send_query`'s receive loop
distinguishes (messaging.rs lines 244-281).  The register family carries its
operation id; every variant not matched by a dedicated arm is collapsed into
`other`. -/
inductive QueryResponse where
  | getChunk (r : RustResult Chunk Nat)
  | getRegister (r : RustResult Nat Nat) (op : Nat)
  | getRegisterPolicy (r : RustResult Nat Nat) (op : Nat)
  | getRegisterOwner (r : RustResult Nat Nat) (op : Nat)
  | getRegisterUserPermissions (r : RustResult Nat Nat) (op : Nat)
  | other (payload : Nat) (op : Nat)
  deriving DecidableEq, Repr

/-- Modelled from the spec: `QueryResponse::operation_id()` lives in
`sn_interface::messaging::data`, which is not part of the sources under
study; the spec says an operation id is "a content hash derived
deterministically from a query".  The register family carries its operation
id; for a successful chunk response the id is derived (injectively modelled
by the identity) from the chunk's name; for a failed chunk response no id is
derivable. -/
def QueryResponse.operationId : QueryResponse → RustResult Nat Unit
  | .getChunk (.ok c) => .ok c.name
  | .getChunk (.err _) => .err ()
  | .getRegister _ op => .ok op
  | .getRegisterPolicy _ op => .ok op
  | .getRegisterOwner _ op => .ok op
  | .getRegisterUserPermissions _ op => .ok op
  | .other _ op => .ok op

/-- The receive loop of `send_query` (messaging.rs lines 240-285).
`chunkAddr` is `Some name` exactly for a `GetChunk` query.  Each iteration
starts with `error_response = None` (the `let mut error_response = None`
is *inside* the `loop`), so the error saved by an error arm survives only
until the bottom-of-loop check `discarded_responses == elders_len` of that
same iteration.  The end of the list models the channel closing (`recv()`
returning `None`). -/
def queryLoop (eldersLen : Nat) (chunkAddr : Option Nat) :
    Nat → List QueryResponse → Option QueryResponse
  | _, [] => none
  | discarded, r :: rest =>
    match r, chunkAddr with
    | .getChunk (.ok c), some addr =>
      if addr = c.name then
        some (.getChunk (.ok c))
      else
        -- invalid chunk: counted as discarded; error_response is None here
        if discarded + 1 = eldersLen then none
        else queryLoop eldersLen chunkAddr (discarded + 1) rest
    | .getChunk (.err e), some _ =>
      if discarded + 1 = eldersLen then some (.getChunk (.err e))
      else queryLoop eldersLen chunkAddr (discarded + 1) rest
    | .getRegister (.err e) op, none =>
      if discarded + 1 = eldersLen then some (.getRegister (.err e) op)
      else queryLoop eldersLen chunkAddr (discarded + 1) rest
    | .getRegisterPolicy (.err e) op, none =>
      if discarded + 1 = eldersLen then some (.getRegisterPolicy (.err e) op)
      else queryLoop eldersLen chunkAddr (discarded + 1) rest
    | .getRegisterOwner (.err e) op, none =>
      if discarded + 1 = eldersLen then some (.getRegisterOwner (.err e) op)
      else queryLoop eldersLen chunkAddr (discarded + 1) rest
    | .getRegisterUserPermissions (.err e) op, none =>
      if discarded + 1 = eldersLen then some (.getRegisterUserPermissions (.err e) op)
      else queryLoop eldersLen chunkAddr (discarded + 1) rest
    | r, _ => some r

/-- The `pending_queries` table: operation id to the ordered list of
listening msg ids (each paired, in the code, with its response sender). -/
abbrev PendingQueries := List (Nat × List Nat)

/-- Listener registration (messaging.rs lines 200-213): push onto the
existing entry's vector, or insert a fresh one-element entry. -/
def registerListener (pq : PendingQueries) (op msgId : Nat) : PendingQueries :=
  if pq.any (fun e => e.1 = op) then
    pq.map (fun e => if e.1 = op then (e.1, e.2 ++ [msgId]) else e)
  else
    pq ++ [(op, [msgId])]

/-- `Vec::swap_remove(i)`: removes index `i` by replacing it with the last
element and popping. -/
def swapRemove (l : List Nat) (i : Nat) : List Nat :=
  (l.set i (l.getLastD 0)).dropLast

/-- Listener removal (messaging.rs lines 296-303): in the entry for `op`,
find the position of the listener with this msg id and `swap_remove` it.
The entry itself is never deleted from the table, even when its vector
becomes empty. -/
def removeListener (pq : PendingQueries) (op msgId : Nat) : PendingQueries :=
  pq.map (fun e =>
    if e.1 = op then
      match e.2.findIdx? (fun id => id = msgId) with
      | some i => (e.1, swapRemove e.2 i)
      | none => e
    else e)

/-- Failure modes of `send_query` relevant here. -/
inductive QueryError where
  | unknownOperationId
  | noResponse
  deriving DecidableEq, Repr

/-- The value `send_query` returns on success. -/
structure QueryResult where
  response : QueryResponse
  operationId : Nat
  deriving DecidableEq, Repr

/-- `send_query` as a transformer of the `pending_queries` table
(messaging.rs lines 162-322): register the listener (when the query has an
operation id), run the receive loop, then — only when a response was
obtained and its operation id is computable — remove the listener from the
entry keyed by the response's operation id, and finally map the response to
the result (`UnknownOperationId` when the response has no operation id,
`NoResponse` when the channel closed). -/
def send_query_model (pq : PendingQueries) (queryOp : Option Nat) (msgId : Nat)
    (eldersLen : Nat) (chunkAddr : Option Nat) (rs : List QueryResponse) :
    PendingQueries × RustResult QueryResult QueryError :=
  let pq1 := match queryOp with
    | some op => registerListener pq op msgId
    | none => pq
  let response := queryLoop eldersLen chunkAddr 0 rs
  match response with
  | some r =>
    match r.operationId with
    | .ok oid => (removeListener pq1 oid msgId, .ok ⟨r, oid⟩)
    | .err _ => (pq1, .err .unknownOperationId)
  | none => (pq1, .err .noResponse)

/-! ## make_contact_with_nodes (messaging.rs, lines 325-454)

An initial batch of `NODES_TO_CONTACT_PER_STARTUP_BATCH` seeds is contacted
(line 357); then a loop, as long as no SAP covering the destination is
known, sends one further batch per iteration (after two idle knowledge
checks, which send nothing): `start_pos = outgoing_msg_rounds * 3` (reset to
`last_start_pos` when it runs past the seed list), a full batch of 3 when it
fits, otherwise the tail `nodes[start_pos..]` with `tried_every_contact`
set; the next iteration then fails with `NetworkContact(nodes)`. -/

/-- `NODES_TO_CONTACT_PER_STARTUP_BATCH` (messaging.rs line 42). -/
def NODES_TO_CONTACT_PER_STARTUP_BATCH : Nat := 3

/-- The batch-sending loop of `make_contact_with_nodes` (messaging.rs lines
388-448) in a run where no SAP ever becomes known, counting the fan-out
batches issued (`sends` starts at 1, counting the initial batch).  `k` is
the seed-list length, `rounds` is `outgoing_msg_rounds`, `lastStart` is
`last_start_pos`.  The two idle knowledge checks of the source send nothing
and do not affect the count.  The first argument is fuel for Lean's
termination; `contactLoop_bound` shows `k + 1` is enough for it never to run
out (`none`). -/
def contactLoop (k : Nat) : Nat → Nat → Nat → Nat → Option Nat
  | 0, _, _, _ => none
  | fuel + 1, rounds, lastStart, sends =>
    let sp0 := rounds * NODES_TO_CONTACT_PER_STARTUP_BATCH
    let sp := if sp0 > k then lastStart else sp0
    if sp + NODES_TO_CONTACT_PER_STARTUP_BATCH > k then some (sends + 1)
    else contactLoop k fuel (rounds + 1) sp (sends + 1)

/-- Total number of fan-out batches a failing run of
`make_contact_with_nodes` issues over `k` seeds: the initial batch plus the
loop's batches. -/
def makeContactBatches (k : Nat) : Option Nat :=
  contactLoop k (k + 1) 1 0 1

/-! ## get_query_elders (messaging.rs, lines 456-485) -/

/-- A network peer; its identity is its name. -/
structure Peer where
  name : Nat
  deriving DecidableEq, Repr

/-- Client-session errors relevant to elder resolution. -/
inductive SessionError where
  | noNetworkKnowledge
  | insufficientElderConnections (connections required : Nat)
  deriving DecidableEq, Repr

/-- `NUM_OF_ELDERS_SUBSET_FOR_QUERIES` (messaging.rs line 39). -/
def NUM_OF_ELDERS_SUBSET_FOR_QUERIES : Nat := 3

/-- `get_query_elders` (messaging.rs lines 456-485).  `sap` is the result of
`network.closest(dst)` as `(section_key, elders_vec)`; the elder list is
taken already shuffled, since the shuffle merely permutes it and nothing
below depends on the order.  The code takes the first
`NUM_OF_ELDERS_SUBSET_FOR_QUERIES` elders and errors precisely when
`elders_len < NUM_OF_ELDERS_SUBSET_FOR_QUERIES && elders_len > 1`. -/
def get_query_elders (sap : Option (Nat × List Peer)) :
    RustResult (Nat × List Peer) SessionError :=
  match sap with
  | none => .err .noNetworkKnowledge
  | some (sectionPk, elders) =>
    let elders := elders.take NUM_OF_ELDERS_SUBSET_FOR_QUERIES
    let eldersLen := elders.length
    if eldersLen < NUM_OF_ELDERS_SUBSET_FOR_QUERIES ∧ eldersLen > 1 then
      .err (.insufficientElderConnections eldersLen NUM_OF_ELDERS_SUBSET_FOR_QUERIES)
    else
      .ok (sectionPk, elders)

/-! ## send_msg (messaging.rs, lines 542-673)

One task per recipient attempts `link.send_with`, retrying on failure up to
`CLIENT_SEND_RETRIES` times; the results are collected in recipient order,
the last error recorded, and the call fails (with that last error) only when
the failure count strictly exceeds the success count.  Tokio join errors
(task panics) are outside this model. -/

/-- `CLIENT_SEND_RETRIES` (messaging.rs line 48). -/
def CLIENT_SEND_RETRIES : Nat := 3

/-- The retry loop of one send task (messaging.rs lines 583-592): `attempt i`
is the outcome of the `i`-th `send_and_retry` call (`none` = success,
`some e` = error).  Arguments: retries still allowed
(`CLIENT_SEND_RETRIES - retries`), calls made so far, current result;
returns the final result and the number of calls made. -/
def retryGo (attempt : Nat → Option Nat) : Nat → Nat → Option Nat → Option Nat × Nat
  | _, made, none => (none, made)
  | 0, made, some e => (some e, made)
  | remaining + 1, made, some _ => retryGo attempt remaining (made + 1) (attempt made)

/-- One whole send task: the initial call plus the retry loop. -/
def sendTask (attempt : Nat → Option Nat) : Option Nat × Nat :=
  retryGo attempt CLIENT_SEND_RETRIES 1 (attempt 0)

/-- Per-peer final results of the fan-out, in recipient order (`join_all`
preserves order). -/
def sendResults (peers : List (Nat → Option Nat)) : List (Option Nat) :=
  peers.map (fun p => (sendTask p).1)

/-- `successful_sends` (messaging.rs line 643). -/
def successfulSends (peers : List (Nat → Option Nat)) : Nat :=
  (sendResults peers).countP (fun r => r.isNone)

/-- `failures = nodes.len() - successful_sends` (messaging.rs line 651). -/
def sendFailures (peers : List (Nat → Option Nat)) : Nat :=
  peers.length - successfulSends peers

/-- `last_error` after the result loop (messaging.rs lines 603-649): the
error of the last failing peer in result order. -/
def lastSendError (peers : List (Nat → Option Nat)) : Option Nat :=
  ((sendResults peers).filterMap id).getLast?

/-- The return value of `send_msg` (messaging.rs lines 664-672): the last
error only when failures strictly exceed successes, otherwise `Ok`. -/
def send_msg_model (peers : List (Nat → Option Nat)) : RustResult Unit Nat :=
  if sendFailures peers > successfulSends peers then
    match lastSendError peers with
    | some e => .err e
    | none => .ok ()
  else .ok ()

/-! ## cast_offline_proposals (src/sn_node/src/node/connectivity.rs, lines 32-54) -/

/-- A `Proposal::VoteNodeOffline` dispatch: the subject node and the
recipients handed to `send_proposal`. -/
structure OfflineProposal where
  recipients : List Peer
  subject : Nat
  deriving DecidableEq, Repr

/-- The node state `cast_offline_proposals` consults: the current section
authority provider's elders, and the section members
(`get_section_member`), each paired with whether `info.leave()` succeeds
for it. -/
structure NodeState where
  elders : List Peer
  members : List (Nat × Bool)
  deriving Repr

/-- The per-name loop of `cast_offline_proposals` (connectivity.rs lines
43-52): unknown names are skipped, a failing `leave()` propagates through
`?`, and `send_proposal`'s own cmds are modelled by the proposal record
(its failure is swallowed by the `if let Ok(cmds)` and, in this model,
`send_proposal` itself does not fail). -/
def castLoop (elders : List Peer) (members : List (Nat × Bool)) :
    List Nat → List OfflineProposal → RustResult (List OfflineProposal) Unit
  | [], acc => .ok acc
  | n :: rest, acc =>
    match members.find? (fun m => m.1 = n) with
    | some m =>
      if m.2 then castLoop elders members rest (acc ++ [⟨elders, n⟩])
      else .err ()
    | none => castLoop elders members rest acc

/-- `cast_offline_proposals` (connectivity.rs lines 32-54): every proposal is
sent to the SAP's elders with all proposed-offline names filtered out. -/
def cast_offline_proposals (st : NodeState) (names : List Nat) :
    RustResult (List OfflineProposal) Unit :=
  castLoop (st.elders.filter (fun peer => peer.name ∉ names)) st.members names []

/-! ## ChunkStorage::store (src/sn_node/src/storage/chunks.rs, lines 77-103) -/

/-- `ReplicatedDataAddress`. -/
inductive DataAddress where
  | chunk (name : Nat)
  | registerAddr (name : Nat)
  deriving DecidableEq, Repr

/-- `DataCmd`: store a chunk, or a register cmd (whose payload is irrelevant
to the storage claims). -/
inductive DataCmd where
  | storeChunk (c : Chunk)
  | registerCmd (addr : Nat)
  deriving DecidableEq, Repr

/-- `DataCmd::address()`. -/
def DataCmd.address : DataCmd → DataAddress
  | .storeChunk c => .chunk c.name
  | .registerCmd a => .registerAddr a

/-- Bytes a cmd occupies on disk once written; for a chunk this is its
value's length (`chunk.value().len()` is also what `can_add` is asked
about). -/
def DataCmd.storedSize : DataCmd → Nat
  | .storeChunk c => c.value.length
  | .registerCmd _ => 1

/-- Modelled from the spec: the `FileStore`/`UsedSpace` backend of
`ChunkStorage` (`sn_node::storage::filestore` is not among the sources under
study).  Spec §6 describes a per-node local storage root where a data file
sits at its address; `data_file_exists` tests for it, `can_add` checks the
remaining capacity, `write_data` creates the file. -/
structure FileStore where
  files : List (DataAddress × Nat)
  capacity : Nat
  deriving DecidableEq, Repr

/-- Modelled from the spec: total size of the stored files. -/
def FileStore.usedSpace (fs : FileStore) : Nat :=
  (fs.files.map (fun f => f.2)).sum

/-- Modelled from the spec: `FileStore::data_file_exists`. -/
def FileStore.dataFileExists (fs : FileStore) (a : DataAddress) : Bool :=
  fs.files.any (fun f => f.1 = a)

/-- Modelled from the spec: `UsedSpace::can_add` — the new data still fits. -/
def FileStore.canAdd (fs : FileStore) (len : Nat) : Bool :=
  fs.usedSpace + len ≤ fs.capacity

/-- Modelled from the spec: `FileStore::write_data` stores the data file. -/
def FileStore.writeData (fs : FileStore) (d : DataCmd) : FileStore :=
  { fs with files := fs.files ++ [(d.address, d.storedSize)] }

/-- The two error paths of `ChunkStorage::store`. -/
inductive StoreError where
  | dataExists
  | notEnoughSpace
  deriving DecidableEq, Repr

/-- `ChunkStorage::store` (chunks.rs lines 77-103), with the file-store state
threaded explicitly: existing data file ⇒ `DataExists`; a chunk that does
not fit ⇒ `NotEnoughSpace`; otherwise the data is written. -/
def ChunkStorage.store (fs : FileStore) (data : DataCmd) :
    FileStore × RustResult Unit StoreError :=
  if fs.dataFileExists data.address then (fs, .err .dataExists)
  else
    match data with
    | .storeChunk c =>
      if !fs.canAdd c.value.length then (fs, .err .notEnoughSpace)
      else (fs.writeData data, .ok ())
    | _ => (fs.writeData data, .ok ())

/-- Finding the freshly appended listener: when `msgId` does not occur in
`w`, the scan finds it exactly at the end of `w ++ [msgId]`. -/
theorem findIdx?_append_singleton (msgId : Nat) (w : List Nat) (hw : msgId ∉ w) :
    ∀ i, (w ++ [msgId]).findIdx? (fun id => id = msgId) i = some (i + w.length) := by
  induction w with
  | nil =>
    intro i
    simp [List.findIdx?_cons]
  | cons a w ih =>
    intro i
    have ha : a ≠ msgId := fun h => hw (h ▸ List.mem_cons_self a w)
    have ha' : (fun id => decide (id = msgId)) a = false := by
      simp [ha]
    simp only [List.cons_append, List.findIdx?_cons, ha']
    rw [if_neg (by simp [ha])]
    rw [ih (fun h => hw (List.mem_cons_of_mem a h)) (i + 1)]
    congr 1
    simp
    omega

/-- `swap_remove` at the last position just drops the last element. -/
theorem swapRemove_last (w : List Nat) (x : Nat) :
    swapRemove (w ++ [x]) w.length = w := by
  unfold swapRemove
  have h1 : (w ++ [x]).getLastD 0 = x := by simp
  rw [h1, show w.length = w.length + 0 from rfl,
    List.set_append_right _ _ (by omega)]
  simp

/-- Registering a fresh listener leaves every entry for `op` with `msgId`
appended exactly once at the end. -/
theorem registerListener_entry (pq : PendingQueries) (op msgId : Nat)
    (hfresh : ∀ e ∈ pq, msgId ∉ e.2) :
    ∀ v, (op, v) ∈ registerListener pq op msgId → ∃ w, v = w ++ [msgId] ∧ msgId ∉ w := by
  intro v hv
  unfold registerListener at hv
  by_cases hany : pq.any (fun e => e.1 = op)
  · rw [if_pos hany] at hv
    rcases List.mem_map.1 hv with ⟨e, he, hfe⟩
    by_cases heq : e.1 = op
    · rw [if_pos heq] at hfe
      have hv2 : v = e.2 ++ [msgId] := (Prod.mk.injEq _ _ _ _ ▸ hfe).2.symm
      exact ⟨e.2, hv2, hfresh e he⟩
    · rw [if_neg heq] at hfe
      exact absurd (by rw [hfe]) heq
  · rw [if_neg hany] at hv
    rcases List.mem_append.1 hv with h | h
    · exact absurd (List.any_eq_true.2 ⟨(op, v), h, by simp⟩) hany
    · simp only [List.mem_singleton, Prod.mk.injEq] at h
      exact ⟨[], by simp [h.2.symm], by simp⟩

/-- Removing the listener from entries produced by a fresh registration
leaves no occurrence of `msgId`. -/
theorem removeListener_fresh (pq : PendingQueries) (op msgId : Nat)
    (h : ∀ v, (op, v) ∈ pq → ∃ w, v = w ++ [msgId] ∧ msgId ∉ w) :
    ∀ v, (op, v) ∈ removeListener pq op msgId → msgId ∉ v := by
  intro v hv
  unfold removeListener at hv
  rcases List.mem_map.1 hv with ⟨e, he, hfe⟩
  by_cases heq : e.1 = op
  · rw [if_pos heq] at hfe
    obtain ⟨w, hw, hmem⟩ := h e.2 (by
      have : e = (op, e.2) := by
        rw [← heq]
      rw [← this]
      exact he)
    rw [hw, findIdx?_append_singleton msgId w hmem 0] at hfe
    have : v = swapRemove (w ++ [msgId]) (0 + w.length) :=
      (Prod.mk.injEq _ _ _ _ ▸ hfe).2.symm
    rw [Nat.zero_add, swapRemove_last] at this
    rw [this]
    exact hmem
  · rw [if_neg heq] at hfe
    exact absurd (by rw [hfe]) heq

/-- `removeListener` never deletes an entry: it only rewrites values. -/
theorem removeListener_keys (pq : PendingQueries) (op msgId : Nat) :
    ∀ o v, (o, v) ∈ pq → ∃ v', (o, v') ∈ removeListener pq op msgId := by
  intro o v hv
  have hmem := List.mem_map_of_mem (f := fun e =>
    if e.1 = op then
      match e.2.findIdx? (fun id => id = msgId) with
      | some i => (e.1, swapRemove e.2 i)
      | none => e
    else e) hv
  refine ⟨(if (o, v).1 = op then
      match (o, v).2.findIdx? (fun id => id = msgId) with
      | some i => ((o, v).1, swapRemove (o, v).2 i)
      | none => (o, v)
    else (o, v)).2, ?_⟩
  have hfst : ∀ e : Nat × List Nat, ((if e.1 = op then
      match e.2.findIdx? (fun id => id = msgId) with
      | some i => (e.1, swapRemove e.2 i)
      | none => e
    else e)).1 = e.1 := by
    intro e
    by_cases heq : e.1 = op
    · rw [if_pos heq]
      cases e.2.findIdx? (fun id => id = msgId) <;> rfl
    · rw [if_neg heq]
  rw [removeListener]
  have := hfst (o, v)
  convert hmem using 2
  exact this.symm

/-- C3, counterexample.  The claim that on return "if the entry is then empty
the entry itself is erased from pending_queries" is false on the code: the
removal block (messaging.rs lines 292-308) only `swap_remove`s the listener
from the entry's vector and never deletes the entry, so after a single
registered listener is removed the table still holds the operation id,
mapped to an empty vector. -/
theorem send_query_entry_not_erased_counterexample :
    (send_query_model [] (some 1) 7 3 none [.getRegister (.ok 0) 1]).1 = [(1, [])] ∧
    (send_query_model [] (some 1) 7 3 none [.getRegister (.ok 0) 1]).2 =
      .ok ⟨.getRegister (.ok 0) 1, 1⟩ := by
  constructor <;> rfl

/-- C3, amended.  When `send_query` returns a response whose operation id is
computable and equal to the one the listener was registered under, the
`(msg_id, sender)` listener has been removed from that entry's vector; but
the entry itself always stays in `pending_queries` (possibly with an empty
vector) — no entry is ever erased.  (On the `NoResponse` path the listener
is not removed at all.) -/
theorem send_query_listener_bookkeeping (pq : PendingQueries) (op msgId eldersLen : Nat)
    (chunkAddr : Option Nat) (rs : List QueryResponse)
    (hfresh : ∀ e ∈ pq, msgId ∉ e.2) :
    (∀ o v, (o, v) ∈ registerListener pq op msgId →
      ∃ v', (o, v') ∈ (send_query_model pq (some op) msgId eldersLen chunkAddr rs).1) ∧
    (∀ r oid, (send_query_model pq (some op) msgId eldersLen chunkAddr rs).2 = .ok ⟨r, oid⟩ →
      oid = op →
      ∀ v, (op, v) ∈ (send_query_model pq (some op) msgId eldersLen chunkAddr rs).1 →
        msgId ∉ v) := by
  constructor
  · intro o v hv
    rcases hq : queryLoop eldersLen chunkAddr 0 rs with _ | r
    · simp only [send_query_model, hq]
      exact ⟨v, hv⟩
    · rcases hop : r.operationId with oid | e
      · simp only [send_query_model, hq, hop]
        exact removeListener_keys (registerListener pq op msgId) oid msgId o v hv
      · simp only [send_query_model, hq, hop]
        exact ⟨v, hv⟩
  · intro r oid hret hoid v hv
    rcases hq : queryLoop eldersLen chunkAddr 0 rs with _ | r'
    · simp only [send_query_model, hq] at hret
      exact absurd hret (by simp)
    · rcases hop : r'.operationId with oid' | e
      · simp only [send_query_model, hq, hop] at hret hv
        simp only [RustResult.ok.injEq, QueryResult.mk.injEq] at hret
        have hoid' : oid' = op := by
          rw [← hoid, ← hret.2]
        rw [hoid'] at hv
        exact removeListener_fresh (registerListener pq op msgId) op msgId
          (registerListener_entry pq op msgId hfresh) v hv
      · simp only [send_query_model, hq, hop] at hret
        exact absurd hret (by simp)

/-- C3, witness for the amended theorem: a concrete run (fresh msg id 9,
operation id 2, a single register response) in which the removal conclusion
applies. -/
theorem send_query_listener_bookkeeping_witness : (9 : Nat) ∉ ([] : List Nat) :=
  (send_query_listener_bookkeeping [] 2 9 3 none [.getRegister (.ok 4) 2]
      (by simp)).2 (.getRegister (.ok 4) 2) 2 (by rfl) rfl [] (by simp [send_query_model, queryLoop, QueryResponse.operationId, removeListener, registerListener, swapRemove])

/-- Characterisation of the waiting loop's outcome by prefix counts: the loop
ends in `errorCmd` exactly when some prefix of the dequeued responses brings
the error counter to the threshold while the ack counter is still below it. -/
theorem ackWait_errorCmd_iff (expected : Nat) (pending : Finset Nat) (msgId : Nat)
    (rs : List CmdResponse) :
    ∀ (a b : Nat), a < expected → b < expected →
      ((∃ e, (ackWait expected pending msgId a b rs).2 = .errorCmd e) ↔
        ∃ k, expected ≤ b + errCount (rs.take k) ∧ a + ackCount (rs.take k) < expected) := by
  induction rs with
  | nil =>
    intro a b ha hb
    simp only [ackWait, List.take_nil]
    constructor
    · rintro ⟨e, he⟩
      exact absurd he (by simp)
    · rintro ⟨k, h1, h2⟩
      simp [errCount] at h1
      omega
  | cons r rest ih =>
    intro a b ha hb
    cases r with
    | ack =>
      by_cases h : expected ≤ a + 1
      · rw [show ackWait expected pending msgId a b (.ack :: rest)
            = (pending.erase msgId, .success) by simp [ackWait, h]]
        constructor
        · rintro ⟨e, he⟩
          exact absurd he (by simp)
        · rintro ⟨k, h1, h2⟩
          exfalso
          cases k with
          | zero => simp [errCount, ackCount] at h1 h2; omega
          | succ j =>
            simp [errCount, ackCount, List.countP_cons] at h1 h2
            omega
      · rw [show ackWait expected pending msgId a b (.ack :: rest)
            = ackWait expected pending msgId (a + 1) b rest by simp [ackWait, h]]
        rw [ih (a + 1) b (by omega) hb]
        constructor
        · rintro ⟨k, h1, h2⟩
          refine ⟨k + 1, ?_, ?_⟩
          · simpa [errCount, List.countP_cons] using h1
          · simp only [ackCount, List.take_succ_cons, List.countP_cons] at h2 ⊢
            simp [ackCount] at h2 ⊢
            omega
        · rintro ⟨k, h1, h2⟩
          cases k with
          | zero => simp [errCount] at h1; omega
          | succ j =>
            refine ⟨j, ?_, ?_⟩
            · simp [errCount, List.countP_cons] at h1 ⊢
              omega
            · simp [ackCount, List.countP_cons] at h2 ⊢
              omega
    | err e =>
      by_cases h : expected ≤ b + 1
      · rw [show ackWait expected pending msgId a b (.err e :: rest)
            = (pending.erase msgId, .errorCmd e) by simp [ackWait, h]]
        constructor
        · intro _
          refine ⟨1, ?_, ?_⟩
          · simp [errCount, List.countP_cons]
            omega
          · simp [ackCount, List.countP_cons]
            omega
        · intro _
          exact ⟨e, rfl⟩
      · rw [show ackWait expected pending msgId a b (.err e :: rest)
            = ackWait expected pending msgId a (b + 1) rest by simp [ackWait, h]]
        rw [ih a (b + 1) ha (by omega)]
        constructor
        · rintro ⟨k, h1, h2⟩
          refine ⟨k + 1, ?_, ?_⟩
          · simp [errCount, List.countP_cons] at h1 ⊢
            omega
          · simp [ackCount, List.countP_cons] at h2 ⊢
            omega
        · rintro ⟨k, h1, h2⟩
          cases k with
          | zero => simp [errCount] at h1; omega
          | succ j =>
            refine ⟨j, ?_, ?_⟩
            · simp [errCount, List.countP_cons] at h1 ⊢
              omega
            · simp [ackCount, List.countP_cons] at h2 ⊢
              omega

/-- The waiting loop removes the `pending_cmds` entry exactly when one of the
two counters reaches the threshold on some prefix of the dequeued responses;
on exhaustion the entry is left in place. -/
theorem ackWait_pending_iff (expected : Nat) (pending : Finset Nat) (msgId : Nat)
    (rs : List CmdResponse) :
    ∀ (a b : Nat), a < expected → b < expected → msgId ∈ pending →
      (msgId ∉ (ackWait expected pending msgId a b rs).1 ↔
        ∃ k, expected ≤ a + ackCount (rs.take k) ∨ expected ≤ b + errCount (rs.take k)) := by
  induction rs with
  | nil =>
    intro a b ha hb hmem
    simp only [ackWait, List.take_nil]
    constructor
    · intro hno
      exact absurd hmem hno
    · rintro ⟨k, h | h⟩ <;> simp [ackCount, errCount] at h <;> omega
  | cons r rest ih =>
    intro a b ha hb hmem
    cases r with
    | ack =>
      by_cases h : expected ≤ a + 1
      · rw [show ackWait expected pending msgId a b (.ack :: rest)
            = (pending.erase msgId, .success) by simp [ackWait, h]]
        constructor
        · intro _
          refine ⟨1, Or.inl ?_⟩
          simp [ackCount, List.countP_cons]
          omega
        · intro _
          exact Finset.not_mem_erase msgId pending
      · rw [show ackWait expected pending msgId a b (.ack :: rest)
            = ackWait expected pending msgId (a + 1) b rest by simp [ackWait, h]]
        rw [ih (a + 1) b (by omega) hb hmem]
        constructor
        · rintro ⟨k, h1 | h1⟩
          · refine ⟨k + 1, Or.inl ?_⟩
            simp [ackCount, List.countP_cons] at h1 ⊢
            omega
          · refine ⟨k + 1, Or.inr ?_⟩
            simp [errCount, List.countP_cons] at h1 ⊢
            omega
        · rintro ⟨k, h1 | h1⟩
          · cases k with
            | zero => simp [ackCount] at h1; omega
            | succ j =>
              refine ⟨j, Or.inl ?_⟩
              simp [ackCount, List.countP_cons] at h1 ⊢
              omega
          · cases k with
            | zero => simp [errCount] at h1; omega
            | succ j =>
              refine ⟨j, Or.inr ?_⟩
              simp [errCount, List.countP_cons] at h1 ⊢
              omega
    | err e =>
      by_cases h : expected ≤ b + 1
      · rw [show ackWait expected pending msgId a b (.err e :: rest)
            = (pending.erase msgId, .errorCmd e) by simp [ackWait, h]]
        constructor
        · intro _
          refine ⟨1, Or.inr ?_⟩
          simp [errCount, List.countP_cons]
          omega
        · intro _
          exact Finset.not_mem_erase msgId pending
      · rw [show ackWait expected pending msgId a b (.err e :: rest)
            = ackWait expected pending msgId a (b + 1) rest by simp [ackWait, h]]
        rw [ih a (b + 1) ha (by omega) hmem]
        constructor
        · rintro ⟨k, h1 | h1⟩
          · refine ⟨k + 1, Or.inl ?_⟩
            simp [ackCount, List.countP_cons] at h1 ⊢
            omega
          · refine ⟨k + 1, Or.inr ?_⟩
            simp [errCount, List.countP_cons] at h1 ⊢
            omega
        · rintro ⟨k, h1 | h1⟩
          · cases k with
            | zero => simp [ackCount] at h1; omega
            | succ j =>
              refine ⟨j, Or.inl ?_⟩
              simp [ackCount, List.countP_cons] at h1 ⊢
              omega
          · cases k with
            | zero => simp [errCount] at h1; omega
            | succ j =>
              refine ⟨j, Or.inr ?_⟩
              simp [errCount, List.countP_cons] at h1 ⊢
              omega

/-- C1, counterexample.  The claim "send_cmd returns success iff it received
floor(2n/3)+1 acks, and returns ErrorCmd iff it received floor(2n/3)+1 error
responses with identical error kind" is false on the code: with 3 elders and
no responses at all, the ack-wait loop exhausts its attempt budget and
`send_cmd` returns success with 0 < floor(2*3/3)+1 acks received; and with 5
elders, four error responses of four pairwise distinct kinds still make
`send_cmd` return `ErrorCmd` (the code counts error responses without
comparing their kinds, surfacing the last one). -/
theorem send_cmd_supermajority_counterexample :
    (send_cmd_outcome 3 [] = .success ∧ ackCount [] < 3 * 2 / 3 + 1) ∧
    (send_cmd_outcome 5 [.err 0, .err 1, .err 2, .err 3] = .errorCmd 3 ∧
      [(0 : Nat), 1, 2, 3].Pairwise (· ≠ ·)) := by
  decide

/-- C1, amended.  `send_cmd` returns `ErrorCmd` (carrying the last received
error) iff the error-response count reaches `floor(2n/3)+1` on some prefix of
the received responses while the ack count is still below `floor(2n/3)+1`
(the error kinds need not be identical); in every other case — including
exhaustion of the ack-wait budget with fewer than `floor(2n/3)+1` acks — it
returns success. -/
theorem send_cmd_acceptance (eldersLen : Nat) (rs : List CmdResponse) :
    (∃ e, send_cmd_outcome eldersLen rs = .errorCmd e) ↔
      ∃ k, eldersLen * 2 / 3 + 1 ≤ errCount (rs.take k) ∧
        ackCount (rs.take k) < eldersLen * 2 / 3 + 1 := by
  have h := ackWait_errorCmd_iff (eldersLen * 2 / 3 + 1) ∅ 0 rs 0 0 (by omega) (by omega)
  simpa [send_cmd_outcome] using h

/-- C2, counterexample.  The claim that the `pending_cmds` entry "is removed
on every return path of send_cmd (success, supermajority-of-errors, and
ack-wait exhaustion)" is false: with 3 elders and no responses, `send_cmd`
returns success through the ack-wait-exhaustion `break` (messaging.rs line
142), which does not call `self.pending_cmds.remove`, so the entry for the
msg id is still present on return. -/
theorem send_cmd_pending_counterexample :
    (sendCmdRun ∅ 7 true 3 []).2 = some .success ∧ 7 ∈ (sendCmdRun ∅ 7 true 3 []).1 := by
  constructor
  · rfl
  · decide

/-- C2, amended.  The `pending_cmds` entry for the msg id is inserted before
the fan-out, and on return it has been removed exactly when the fan-out
succeeded and some prefix of the received responses reached the
supermajority threshold in acks or in errors; on ack-wait exhaustion (and
when `send_msg` itself fails) `send_cmd` returns with the entry still in
`pending_cmds`. -/
theorem send_cmd_pending_bookkeeping (pending : Finset Nat) (msgId : Nat)
    (sendOk : Bool) (eldersLen : Nat) (rs : List CmdResponse) :
    msgId ∉ (sendCmdRun pending msgId sendOk eldersLen rs).1 ↔
      (sendOk = true ∧ ∃ k, eldersLen * 2 / 3 + 1 ≤ ackCount (rs.take k) ∨
        eldersLen * 2 / 3 + 1 ≤ errCount (rs.take k)) := by
  cases sendOk with
  | false =>
    simp [sendCmdRun]
  | true =>
    have h := ackWait_pending_iff (eldersLen * 2 / 3 + 1) (insert msgId pending) msgId rs
      0 0 (by omega) (by omega) (Finset.mem_insert_self msgId pending)
    simp only [sendCmdRun, if_pos]
    simpa using h

/-- A chunk accepted by the receive loop of a `GetChunk` query always carries
the requested name. -/
theorem queryLoop_chunk_ok_name (addr eldersLen : Nat) (rs : List QueryResponse) :
    ∀ d c, queryLoop eldersLen (some addr) d rs = some (.getChunk (.ok c)) →
      c.name = addr := by
  induction rs with
  | nil => intro d c h; simp [queryLoop] at h
  | cons r rest ih =>
    intro d c h
    rcases r with cr | ⟨rr, op⟩ | ⟨rr, op⟩ | ⟨rr, op⟩ | ⟨rr, op⟩ | ⟨p, op⟩
    · rcases cr with c' | e
      · simp only [queryLoop] at h
        by_cases hc : addr = c'.name
        · rw [if_pos hc] at h
          simp only [Option.some.injEq, QueryResponse.getChunk.injEq,
            RustResult.ok.injEq] at h
          subst h
          exact hc.symm
        · rw [if_neg hc] at h
          by_cases hd : d + 1 = eldersLen
          · rw [if_pos hd] at h
            exact absurd h (by simp)
          · rw [if_neg hd] at h
            exact ih (d + 1) c h
      · simp only [queryLoop] at h
        by_cases hd : d + 1 = eldersLen
        · rw [if_pos hd] at h
          simp at h
        · rw [if_neg hd] at h
          exact ih (d + 1) c h
    · rcases rr with v | e <;> simp [queryLoop] at h
    · rcases rr with v | e <;> simp [queryLoop] at h
    · rcases rr with v | e <;> simp [queryLoop] at h
    · rcases rr with v | e <;> simp [queryLoop] at h
    · simp [queryLoop] at h

/-- C4.  For a `GetChunk` query with requested address `addr`, `send_query`'s
receive loop never returns a `GetChunk(Ok(c))` whose name differs from
`addr`; a mismatching chunk response is counted as discarded and the loop
continues waiting (returning the no-error outcome of the discard check when
the count reaches the elder count). -/
theorem send_query_chunk_validation (addr eldersLen d : Nat) (rs : List QueryResponse) :
    (∀ c, queryLoop eldersLen (some addr) d rs = some (.getChunk (.ok c)) →
      c.name = addr) ∧
    (∀ c, c.name ≠ addr →
      queryLoop eldersLen (some addr) d (.getChunk (.ok c) :: rs) =
        if d + 1 = eldersLen then none
        else queryLoop eldersLen (some addr) (d + 1) rs) := by
  constructor
  · intro c h
    exact queryLoop_chunk_ok_name addr eldersLen rs d c h
  · intro c hc
    simp only [queryLoop]
    rw [if_neg (fun h => hc h.symm)]

/-- C4, witness: requesting chunk `5` of three elders, a mismatching chunk
named `4` is discarded (the loop moves on), and the accepted chunk is the
one named `5`. -/
theorem send_query_chunk_validation_witness :
    (Chunk.mk 5 []).name = 5 ∧
    queryLoop 3 (some 5) 0 [.getChunk (.ok ⟨4, []⟩)] = queryLoop 3 (some 5) 1 [] := by
  constructor
  · exact (send_query_chunk_validation 5 3 0 [.getChunk (.ok ⟨5, []⟩)]).1 ⟨5, []⟩ (by rfl)
  · have h := (send_query_chunk_validation 5 3 0 []).2 ⟨4, []⟩ (by decide)
    simpa using h

/-- C5, failing input.  The claim — when the discarded count reaches
`|elders|`, `send_query` returns the last saved error rather than
`Err(NoResponse)` — is the behaviour the code's own comment promises
("this will overwrite prior errors, so we'll just return whichever was last
received", messaging.rs lines 260-262), but `let mut error_response = None`
sits *inside* the `loop` (line 243), so the saved error is forgotten on
every new iteration.  Concretely, for a `GetChunk` query for address `5` to
2 elders, the responses `GetChunk(Err(9))` then `GetChunk(Ok(chunk 4))`
(a mismatching chunk) drive `discarded_responses` to `elders_len` with
`error_response == None`, and `send_query` returns `Err(NoResponse)` even
though an error response had been saved. -/
theorem send_query_last_error_failing_input :
    queryLoop 2 (some 5) 0 [.getChunk (.err 9), .getChunk (.ok ⟨4, []⟩)] = none ∧
    send_query_model [] (some 5) 7 2 (some 5)
        [.getChunk (.err 9), .getChunk (.ok ⟨4, []⟩)] =
      ([(5, [7])], .err .noResponse) := by
  constructor <;> rfl

/-- The contact loop, entered at round `r` with `last_start_pos` equal to the
previous round's start position, terminates within the fuel and issues at
most `max r ((k + 2) / 3) + 1 - r` further batches. -/
theorem contactLoop_bound (k : Nat) :
    ∀ (fuel r s : Nat), 1 ≤ r → k < 3 * (r + fuel) + 3 →
      ∃ m, contactLoop k (fuel + 1) r (3 * (r - 1)) s = some m ∧
        m + r ≤ s + 1 + max r ((k + 2) / 3) := by
  intro fuel
  induction fuel with
  | zero =>
    intro r s hr hk
    refine ⟨s + 1, ?_, ?_⟩
    · by_cases h0 : r * NODES_TO_CONTACT_PER_STARTUP_BATCH > k
      · have htail : (3 * (r - 1)) + NODES_TO_CONTACT_PER_STARTUP_BATCH > k := by
          simp only [NODES_TO_CONTACT_PER_STARTUP_BATCH] at h0 ⊢
          omega
        simp only [contactLoop, if_pos h0, if_pos htail]
      · have htail : (r * NODES_TO_CONTACT_PER_STARTUP_BATCH) +
            NODES_TO_CONTACT_PER_STARTUP_BATCH > k := by
          simp only [NODES_TO_CONTACT_PER_STARTUP_BATCH] at h0 ⊢
          omega
        simp only [contactLoop, if_neg h0, if_pos htail]
    · have : r ≤ max r ((k + 2) / 3) := Nat.le_max_left _ _
      omega
  | succ f ih =>
    intro r s hr hk
    by_cases h0 : r * NODES_TO_CONTACT_PER_STARTUP_BATCH > k
    · have htail : (3 * (r - 1)) + NODES_TO_CONTACT_PER_STARTUP_BATCH > k := by
        simp only [NODES_TO_CONTACT_PER_STARTUP_BATCH] at h0 ⊢
        omega
      refine ⟨s + 1, ?_, ?_⟩
      · simp only [contactLoop, if_pos h0, if_pos htail]
      · have : r ≤ max r ((k + 2) / 3) := Nat.le_max_left _ _
        omega
    · by_cases htail : (r * NODES_TO_CONTACT_PER_STARTUP_BATCH) +
          NODES_TO_CONTACT_PER_STARTUP_BATCH > k
      · refine ⟨s + 1, ?_, ?_⟩
        · simp only [contactLoop, if_neg h0, if_pos htail]
        · have : r ≤ max r ((k + 2) / 3) := Nat.le_max_left _ _
          omega
      · have hrec := ih (r + 1) (s + 1) (by omega) (by omega)
        have hlast : 3 * (r + 1 - 1) = r * NODES_TO_CONTACT_PER_STARTUP_BATCH := by
          simp only [NODES_TO_CONTACT_PER_STARTUP_BATCH]
          omega
        rw [hlast] at hrec
        obtain ⟨m, hm, hb⟩ := hrec
        refine ⟨m, ?_, ?_⟩
        · simp only [contactLoop, if_neg h0, if_neg htail]
          exact hm
        · have hr1 : r + 1 ≤ (k + 2) / 3 := by
            simp only [NODES_TO_CONTACT_PER_STARTUP_BATCH] at htail
            omega
          have hmax1 : max (r + 1) ((k + 2) / 3) = (k + 2) / 3 :=
            Nat.max_eq_right hr1
          have hmax2 : max r ((k + 2) / 3) = (k + 2) / 3 :=
            Nat.max_eq_right (by omega)
          rw [hmax1] at hb
          rw [hmax2]
          omega

/-- C6, counterexample.  With an empty seed list (`k = 0`) the code still
issues the initial (empty) batch and then one further (empty) tail batch
before `tried_every_contact` aborts the loop: 2 batches, exceeding the
claimed bound `⌈0 / 3⌉ + 1 = 1`. -/
theorem make_contact_batches_counterexample :
    makeContactBatches 0 = some 2 ∧ ¬ 2 ≤ (0 + 2) / 3 + 1 := by
  constructor
  · rfl
  · decide

/-- C6, amended.  For every seed list of size `k ≥ 1`, a failing run of
`make_contact_with_nodes` issues at most `⌈k / 3⌉ + 1` fan-out batches
before it reports `NetworkContact(seeds)` (for `k = 0` it issues 2). -/
theorem make_contact_batches_bound (k : Nat) (hk : 1 ≤ k) :
    ∃ m, makeContactBatches k = some m ∧ m ≤ (k + 2) / 3 + 1 := by
  obtain ⟨m, hm, hb⟩ := contactLoop_bound k k 1 1 (by omega) (by omega)
  refine ⟨m, ?_, ?_⟩
  · simpa [makeContactBatches] using hm
  · have h1 : 1 ≤ (k + 2) / 3 := by omega
    have : max 1 ((k + 2) / 3) = (k + 2) / 3 := Nat.max_eq_right h1
    omega

/-- C6, witness: nine seeds yield four batches, within `⌈9 / 3⌉ + 1 = 4`. -/
theorem make_contact_batches_bound_witness :
    ∃ m, makeContactBatches 9 = some m ∧ m ≤ (9 + 2) / 3 + 1 :=
  make_contact_batches_bound 9 (by decide)

/-- C7, counterexample.  The claim that "any other undersized subset fails
with InsufficientElderConnections" is false for a SAP with an empty elder
set: `elders_len = 0` fails the guard `elders_len < 3 && elders_len > 1`
(messaging.rs line 477), so `get_query_elders` succeeds with an empty
subset, which is neither of size ≥ 3 nor the single-elder exception. -/
theorem get_query_elders_counterexample :
    get_query_elders (some (0, [])) = .ok (0, []) ∧
    List.length ([] : List Peer) < 3 ∧ List.length ([] : List Peer) ≠ 1 := by
  refine ⟨rfl, by decide, by decide⟩

/-- C7, amended.  `get_query_elders` takes a random subset of at most
`NUM_OF_ELDERS_SUBSET_FOR_QUERIES = 3` elders of the closest SAP; it fails
with `InsufficientElderConnections{2, 3}` exactly when that subset has size
2, and succeeds otherwise — with the single elder when the SAP has exactly
one, and with an empty subset when the SAP has no elders. -/
theorem get_query_elders_subset (sectionPk : Nat) (elders : List Peer) :
    (elders.length = 2 →
      get_query_elders (some (sectionPk, elders)) =
        .err (.insufficientElderConnections 2 NUM_OF_ELDERS_SUBSET_FOR_QUERIES)) ∧
    (elders.length ≠ 2 →
      get_query_elders (some (sectionPk, elders)) =
        .ok (sectionPk, elders.take NUM_OF_ELDERS_SUBSET_FOR_QUERIES)) ∧
    (elders.take NUM_OF_ELDERS_SUBSET_FOR_QUERIES).length ≤
      NUM_OF_ELDERS_SUBSET_FOR_QUERIES := by
  have hlen : (elders.take NUM_OF_ELDERS_SUBSET_FOR_QUERIES).length =
      min NUM_OF_ELDERS_SUBSET_FOR_QUERIES elders.length := List.length_take _ _
  refine ⟨?_, ?_, ?_⟩
  · intro h2
    have hcond : (elders.take NUM_OF_ELDERS_SUBSET_FOR_QUERIES).length <
        NUM_OF_ELDERS_SUBSET_FOR_QUERIES ∧
        (elders.take NUM_OF_ELDERS_SUBSET_FOR_QUERIES).length > 1 := by
      rw [hlen, h2]
      simp [NUM_OF_ELDERS_SUBSET_FOR_QUERIES]
    simp only [get_query_elders, if_pos hcond]
    rw [hlen, h2]
    rfl
  · intro h2
    have hcond : ¬((elders.take NUM_OF_ELDERS_SUBSET_FOR_QUERIES).length <
        NUM_OF_ELDERS_SUBSET_FOR_QUERIES ∧
        (elders.take NUM_OF_ELDERS_SUBSET_FOR_QUERIES).length > 1) := by
      rw [hlen]
      simp only [NUM_OF_ELDERS_SUBSET_FOR_QUERIES]
      omega
    simp only [get_query_elders, if_neg hcond]
  · rw [hlen]
    exact Nat.min_le_left _ _

/-- C7, witness: a SAP with a single elder succeeds with that elder, and a
SAP with two elders fails. -/
theorem get_query_elders_subset_witness :
    get_query_elders (some (4, [⟨11⟩])) = .ok (4, [⟨11⟩]) ∧
    get_query_elders (some (4, [⟨11⟩, ⟨12⟩])) =
      .err (.insufficientElderConnections 2 NUM_OF_ELDERS_SUBSET_FOR_QUERIES) := by
  constructor
  · have h := (get_query_elders_subset 4 [⟨11⟩]).2.1 (by decide)
    simpa using h
  · exact (get_query_elders_subset 4 [⟨11⟩, ⟨12⟩]).1 (by decide)

/-- The retry loop makes at most `made + remaining` calls in total. -/
theorem retryGo_calls_le (attempt : Nat → Option Nat) :
    ∀ (remaining made : Nat) (res : Option Nat),
      (retryGo attempt remaining made res).2 ≤ made + remaining := by
  intro remaining
  induction remaining with
  | zero =>
    intro made res
    cases res <;> simp [retryGo]
  | succ rem ih =>
    intro made res
    cases res with
    | none => simp [retryGo]
    | some e =>
      calc (retryGo attempt (rem + 1) made (some e)).2
          = (retryGo attempt rem (made + 1) (attempt made)).2 := by rw [retryGo]
        _ ≤ made + 1 + rem := ih (made + 1) (attempt made)
        _ = made + (rem + 1) := by omega

/-- A result list with fewer successes than elements has a failure, hence a
last error. -/
theorem filterMap_id_ne_nil (l : List (Option Nat))
    (h : l.countP (fun r => r.isNone) < l.length) : l.filterMap id ≠ [] := by
  induction l with
  | nil => simp at h
  | cons a l ih =>
    cases a with
    | none =>
      simp at h
      have := ih (by omega)
      simpa [List.filterMap_cons]
    | some x => simp [List.filterMap_cons]

/-- When some peer failed, `last_error` is recorded. -/
theorem lastSendError_isSome (peers : List (Nat → Option Nat))
    (h : successfulSends peers < peers.length) : ∃ e, lastSendError peers = some e := by
  have hlen : (sendResults peers).length = peers.length := List.length_map _ _
  have hne : (sendResults peers).filterMap id ≠ [] :=
    filterMap_id_ne_nil (sendResults peers) (by rw [hlen]; exact h)
  rcases hx : ((sendResults peers).filterMap id).getLast? with _ | e
  · exact absurd (List.getLast?_eq_none_iff.1 hx) hne
  · exact ⟨e, hx⟩

/-- C8.  `send_msg` returns an error iff the per-peer failures strictly
outnumber the successes, and the error returned is the last recorded one;
each peer's task makes at most `CLIENT_SEND_RETRIES + 1 = 4` send attempts,
and only one when the first attempt succeeds. -/
theorem send_msg_error_policy (peers : List (Nat → Option Nat)) :
    ((∃ e, send_msg_model peers = .err e) ↔
      sendFailures peers > successfulSends peers) ∧
    (∀ e, send_msg_model peers = .err e → lastSendError peers = some e) ∧
    (∀ attempt, (sendTask attempt).2 ≤ CLIENT_SEND_RETRIES + 1) ∧
    (∀ attempt, attempt 0 = none → (sendTask attempt).2 = 1) := by
  refine ⟨⟨?_, ?_⟩, ?_, ?_, ?_⟩
  · rintro ⟨e, he⟩
    by_contra hgt
    rw [send_msg_model, if_neg hgt] at he
    exact absurd he (by simp)
  · intro hgt
    have hsucc : successfulSends peers < peers.length := by
      have : sendFailures peers ≤ peers.length - successfulSends peers := Nat.le_refl _
      rw [sendFailures] at hgt
      omega
    obtain ⟨e, he⟩ := lastSendError_isSome peers hsucc
    exact ⟨e, by rw [send_msg_model, if_pos hgt, he]⟩
  · intro e he
    rw [send_msg_model] at he
    by_cases hgt : sendFailures peers > successfulSends peers
    · rw [if_pos hgt] at he
      rcases hx : lastSendError peers with _ | e'
      · rw [hx] at he
        exact absurd he (by simp)
      · rw [hx] at he
        simp only [RustResult.err.injEq] at he
        rw [he]
    · rw [if_neg hgt] at he
      exact absurd he (by simp)
  · intro attempt
    have h := retryGo_calls_le attempt CLIENT_SEND_RETRIES 1 (attempt 0)
    rw [sendTask]
    omega
  · intro attempt h
    simp [sendTask, h, retryGo]

/-- C8, witness: three peers of which two always fail and one succeeds —
`failures = 2 > 1 = successes`, so `send_msg` returns the last recorded
error; an always-failing peer makes at most 4 attempts, and an
immediately-successful one exactly 1. -/
theorem send_msg_error_policy_witness :
    (∃ e, send_msg_model [fun _ => some 3, fun _ => some 4, fun _ => none] = .err e) ∧
    (sendTask (fun _ => some 7)).2 ≤ CLIENT_SEND_RETRIES + 1 ∧
    (sendTask (fun _ => none)).2 = 1 := by
  refine ⟨?_, ?_, ?_⟩
  · exact (send_msg_error_policy [fun _ => some 3, fun _ => some 4, fun _ => none]).1.mpr
      (by decide)
  · exact (send_msg_error_policy []).2.2.1 (fun _ => some 7)
  · exact (send_msg_error_policy []).2.2.2 (fun _ => none) rfl

/-- Every proposal the per-name loop emits carries the precomputed recipient
list. -/
theorem castLoop_recipients (E : List Peer) (mem : List (Nat × Bool)) :
    ∀ (ns : List Nat) (acc out : List OfflineProposal),
      (∀ pr ∈ acc, pr.recipients = E) →
      castLoop E mem ns acc = .ok out →
      ∀ pr ∈ out, pr.recipients = E := by
  intro ns
  induction ns with
  | nil =>
    intro acc out hacc h
    simp only [castLoop, RustResult.ok.injEq] at h
    subst h
    exact hacc
  | cons n rest ih =>
    intro acc out hacc h
    rcases hf : mem.find? (fun m => m.1 = n) with _ | m
    · simp only [castLoop, hf] at h
      exact ih acc out hacc h
    · simp only [castLoop, hf] at h
      by_cases hm : m.2 = true
      · rw [if_pos hm] at h
        refine ih (acc ++ [⟨E, n⟩]) out ?_ h
        intro pr hpr
        rcases List.mem_append.1 hpr with h1 | h1
        · exact hacc pr h1
        · simp only [List.mem_singleton] at h1
          rw [h1]
      · rw [if_neg hm] at h
        exact absurd h (by simp)

/-- C9.  When `cast_offline_proposals` succeeds, every emitted
`VoteNodeOffline` proposal is addressed to exactly the elders of the current
section authority provider whose names are not among the proposed-offline
names — in particular no recipient is one of the proposal's subjects. -/
theorem cast_offline_excludes_subjects (st : NodeState) (names : List Nat)
    (out : List OfflineProposal)
    (h : cast_offline_proposals st names = .ok out) :
    ∀ pr ∈ out,
      pr.recipients = st.elders.filter (fun peer => peer.name ∉ names) ∧
      ∀ p ∈ pr.recipients, p.name ∉ names := by
  intro pr hpr
  have hrec := castLoop_recipients
    (st.elders.filter (fun peer => peer.name ∉ names)) st.members names [] out
    (by simp) h pr hpr
  refine ⟨hrec, ?_⟩
  intro p hp
  rw [hrec] at hp
  have := (List.mem_filter.1 hp).2
  simpa using this

/-- C9, witness (scenario S6): proposing names 8 and 9 offline while the
elder set is `{1,…,7,8}` addresses both proposals to exactly `{1,…,7}`. -/
theorem cast_offline_excludes_subjects_witness :
    (OfflineProposal.mk [⟨1⟩, ⟨2⟩, ⟨3⟩, ⟨4⟩, ⟨5⟩, ⟨6⟩, ⟨7⟩] 8).recipients =
      (NodeState.mk [⟨1⟩, ⟨2⟩, ⟨3⟩, ⟨4⟩, ⟨5⟩, ⟨6⟩, ⟨7⟩, ⟨8⟩]
        [(8, true), (9, true)]).elders.filter (fun peer => peer.name ∉ [8, 9]) ∧
    ∀ p ∈ (OfflineProposal.mk [⟨1⟩, ⟨2⟩, ⟨3⟩, ⟨4⟩, ⟨5⟩, ⟨6⟩, ⟨7⟩] 8).recipients,
      p.name ∉ [8, 9] :=
  cast_offline_excludes_subjects
    ⟨[⟨1⟩, ⟨2⟩, ⟨3⟩, ⟨4⟩, ⟨5⟩, ⟨6⟩, ⟨7⟩, ⟨8⟩], [(8, true), (9, true)]⟩ [8, 9]
    [⟨[⟨1⟩, ⟨2⟩, ⟨3⟩, ⟨4⟩, ⟨5⟩, ⟨6⟩, ⟨7⟩], 8⟩,
     ⟨[⟨1⟩, ⟨2⟩, ⟨3⟩, ⟨4⟩, ⟨5⟩, ⟨6⟩, ⟨7⟩], 9⟩]
    (by decide)
    (OfflineProposal.mk [⟨1⟩, ⟨2⟩, ⟨3⟩, ⟨4⟩, ⟨5⟩, ⟨6⟩, ⟨7⟩] 8)
    (by decide)

/-- C10.  `ChunkStorage::store` is atomic on error: an existing data file
yields `Err(DataExists)` with the store untouched; a chunk that does not fit
yields `Err(NotEnoughSpace)` with the store untouched; the data is written
exactly on the `Ok` path. -/
theorem chunk_store_atomic (fs : FileStore) (data : DataCmd) :
    (fs.dataFileExists data.address = true →
      ChunkStorage.store fs data = (fs, .err .dataExists)) ∧
    (∀ c, data = .storeChunk c → fs.dataFileExists data.address = false →
      fs.canAdd c.value.length = false →
      ChunkStorage.store fs data = (fs, .err .notEnoughSpace)) ∧
    ((ChunkStorage.store fs data).2 = .ok () →
      (ChunkStorage.store fs data).1 = fs.writeData data) ∧
    (∀ e, (ChunkStorage.store fs data).2 = .err e →
      (ChunkStorage.store fs data).1 = fs) := by
  refine ⟨?_, ?_, ?_, ?_⟩
  · intro h
    cases data with
    | storeChunk c => rw [ChunkStorage.store, if_pos h]
    | registerCmd a =>
      rw [ChunkStorage.store, if_pos h]
      simp
  · rintro c rfl hex hc
    rw [ChunkStorage.store, if_neg (by simp [hex])]
    simp [hc]
  · intro h
    cases data with
    | storeChunk c =>
      by_cases he : fs.dataFileExists (DataCmd.storeChunk c).address
      · rw [ChunkStorage.store, if_pos he] at h
        exact absurd h (by simp)
      · by_cases hc : fs.canAdd c.value.length
        · rw [ChunkStorage.store, if_neg he]
          simp [hc]
        · simp only [Bool.not_eq_true] at hc
          rw [ChunkStorage.store, if_neg he] at h
          simp [hc] at h
    | registerCmd a =>
      by_cases he : fs.dataFileExists (DataCmd.registerCmd a).address
      · rw [ChunkStorage.store, if_pos he] at h
        · exact absurd h (by simp)
        · simp
      · rw [ChunkStorage.store, if_neg he]
        simp
  · intro e h
    cases data with
    | storeChunk c =>
      by_cases he : fs.dataFileExists (DataCmd.storeChunk c).address
      · rw [ChunkStorage.store, if_pos he]
      · by_cases hc : fs.canAdd c.value.length
        · rw [ChunkStorage.store, if_neg he] at h
          simp [hc] at h
        · simp only [Bool.not_eq_true] at hc
          rw [ChunkStorage.store, if_neg he]
          simp [hc]
    | registerCmd a =>
      by_cases he : fs.dataFileExists (DataCmd.registerCmd a).address
      · rw [ChunkStorage.store, if_pos he]
        simp
      · rw [ChunkStorage.store, if_neg he] at h
        · exact absurd h (by simp)
        · simp

/-- C10, witness: storing at an occupied address fails with `DataExists`
leaving the store unchanged, and an oversized chunk fails with
`NotEnoughSpace` leaving the store unchanged. -/
theorem chunk_store_atomic_witness :
    ChunkStorage.store ⟨[(.chunk 1, 2)], 3⟩ (.storeChunk ⟨1, [5, 5]⟩) =
      (⟨[(.chunk 1, 2)], 3⟩, .err .dataExists) ∧
    ChunkStorage.store ⟨[(.chunk 1, 2)], 3⟩ (.storeChunk ⟨2, [5, 5]⟩) =
      (⟨[(.chunk 1, 2)], 3⟩, .err .notEnoughSpace) :=
  ⟨(chunk_store_atomic ⟨[(.chunk 1, 2)], 3⟩ (.storeChunk ⟨1, [5, 5]⟩)).1 (by decide),
   (chunk_store_atomic ⟨[(.chunk 1, 2)], 3⟩ (.storeChunk ⟨2, [5, 5]⟩)).2.1
     ⟨2, [5, 5]⟩ rfl (by decide) (by decide)⟩

end SafeNetwork
